import Mathlib

/-!
Verification development for the tweening engine (`src/tweenable.rs`).

Times are modelled in integer nanoseconds (`ℕ`), exactly as Rust's `Duration`
stores them; `tick`, wrapping and completion counting are pure integer
arithmetic in both the Rust code and this model.  The `f32`/`f64` values that
appear only at the reporting and seeking boundary (`progress()`,
`set_progress`) are idealized as exact rationals (`ℚ`); `Duration::from_secs_f64`
truncates to whole nanoseconds, modelled by `qToNanos` below.  Targets are an
abstract type `T`; the interpolation capability ("lens") is a function
`T → ℚ → T` and the easing capability a function `ℚ → ℚ`, both carried in the
`Tween` structure exactly as in the source.
-/

/-- Truncation of a (nonnegative) rational number of nanoseconds to a whole
nanosecond count, as `Duration::from_secs_f64` does when converting back
from floating point. -/
def qToNanos (q : ℚ) : ℕ :=
  (⌊q⌋).toNat

/-- Modelled from the spec: looping mode `Once | Loop | PingPong` (spec §3;
the Rust `TweeningType` enum lives in the crate root, not under `src/`). -/
inductive TweeningType
  | Once
  | Loop
  | PingPong
  deriving DecidableEq, Repr

/-- Modelled from the spec: playback direction `Forward | Backward` with a
flip operation (spec §3; the Rust `TweeningDirection` enum and its `Not`
impl live in the crate root, not under `src/`). -/
inductive TweeningDirection
  | Forward
  | Backward
  deriving DecidableEq, Repr

/-- The "flip" operation on directions (Rust `impl Not for TweeningDirection`). -/
def TweeningDirection.flip : TweeningDirection → TweeningDirection
  | .Forward => .Backward
  | .Backward => .Forward

/-- Playback state returned by `tick` (source `TweenState`, tweenable.rs:11-17). -/
inductive TweenState
  | Active
  | Completed
  deriving DecidableEq, Repr

/-- Modelled from the spec: the Timer component (spec §2-§3; the Rust code uses
`bevy::prelude::Timer`, which is not part of this repository's `src/`).
Fields: total `duration` and `elapsed` time in nanoseconds, the `repeating`
flag, plus the stored derived state `finished` and `timesFinished` (count of
duration boundaries crossed during the last tick), as described in spec §3. -/
structure Timer where
  duration : ℕ
  elapsed : ℕ
  repeating : Bool
  finished : Bool
  timesFinished : ℕ
  deriving DecidableEq, Repr

/-- Modelled from the spec: a fresh timer has zero elapsed time and no
finish events recorded. -/
def Timer.new (duration : ℕ) (repeating : Bool) : Timer :=
  { duration := duration, elapsed := 0, repeating := repeating,
    finished := false, timesFinished := 0 }

/-- Modelled from the spec: `percent = elapsed/duration` clamped to `[0,1]`
(spec §3), reported as an exact fraction. -/
def Timer.percent (t : Timer) : ℚ :=
  min 1 (max 0 ((t.elapsed : ℚ) / (t.duration : ℚ)))

/-- Modelled from the spec: `percent_left = 1 - percent` (spec §3). -/
def Timer.percent_left (t : Timer) : ℚ :=
  1 - t.percent

/-- Modelled from the spec: `just_finished` holds when at least one duration
boundary was crossed during the last tick (spec §3). -/
def Timer.just_finished (t : Timer) : Bool :=
  decide (t.timesFinished ≠ 0)

/-- Modelled from the spec: set the elapsed time without updating the stored
derived state (`finished`, `timesFinished`); the source compensates by
ticking with a zero delta afterwards (tweenable.rs:274-275). -/
def Timer.set_elapsed (t : Timer) (e : ℕ) : Timer :=
  { t with elapsed := e }

/-- Modelled from the spec: reset the timer to its initial state. -/
def Timer.reset (t : Timer) : Timer :=
  { t with elapsed := 0, finished := false, timesFinished := 0 }

/-- Modelled from the spec: advance the timer by `delta` nanoseconds (spec §3).
A finished non-repeating timer no longer advances; a repeating timer wraps its
elapsed time at each duration boundary and records how many boundaries were
crossed this tick; a non-repeating timer saturates at `duration`. -/
def Timer.tick (t : Timer) (delta : ℕ) : Timer :=
  if t.finished ∧ ¬t.repeating then
    { t with timesFinished := 0 }
  else
    let e := t.elapsed + delta
    if t.duration ≤ e then
      if t.repeating then
        { t with elapsed := e % t.duration, finished := true,
                 timesFinished := e / t.duration }
      else
        { t with elapsed := t.duration, finished := true, timesFinished := 1 }
    else
      { t with elapsed := e, finished := false, timesFinished := 0 }

/-- Single tweening animation instance (source `Tween<T>`, tweenable.rs:131-140).
The completion callback is modelled by whether one is registered
(`on_completed`), since its body is external to the engine. -/
structure Tween (T : Type) where
  ease_function : ℚ → ℚ
  timer : Timer
  tweening_type : TweeningType
  direction : TweeningDirection
  times_completed : ℕ
  lens : T → ℚ → T
  on_completed : Bool
  raise_event : Bool

/-- Source `Tween::new` (tweenable.rs:193-212). -/
def Tween.new {T : Type} (ease : ℚ → ℚ) (ty : TweeningType) (duration : ℕ)
    (lens : T → ℚ → T) : Tween T :=
  { ease_function := ease,
    timer := Timer.new duration (decide (ty ≠ TweeningType.Once)),
    tweening_type := ty,
    direction := TweeningDirection.Forward,
    times_completed := 0,
    lens := lens,
    on_completed := false,
    raise_event := false }

/-- Source `Tween::with_completed_event` (tweenable.rs:220-223). -/
def Tween.with_completed_event {T : Type} (t : Tween T) (enabled : Bool) : Tween T :=
  { t with raise_event := enabled }

/-- Source `Tween::set_completed` (tweenable.rs:238-243): register a callback. -/
def Tween.set_completed {T : Type} (t : Tween T) : Tween T :=
  { t with on_completed := true }

/-- Source `Tweenable::duration` for `Tween` (tweenable.rs:262-264). -/
def Tween.duration {T : Type} (t : Tween T) : ℕ :=
  t.timer.duration

/-- Source `Tweenable::is_looping` for `Tween` (tweenable.rs:266-268). -/
def Tween.is_looping {T : Type} (t : Tween T) : Bool :=
  decide (t.tweening_type ≠ TweeningType.Once)

/-- Source `Tweenable::set_progress` for `Tween` (tweenable.rs:270-276):
set the timer's elapsed time to `duration * progress` (converted back to whole
nanoseconds), then tick the timer by zero to refresh its stored derived state. -/
def Tween.set_progress {T : Type} (t : Tween T) (progress : ℚ) : Tween T :=
  { t with timer :=
      (t.timer.set_elapsed (qToNanos ((t.timer.duration : ℚ) * progress))).tick 0 }

/-- Source `Tweenable::progress` for `Tween` (tweenable.rs:278-283). -/
def Tween.progress {T : Type} (t : Tween T) : ℚ :=
  match t.direction with
  | .Forward => t.timer.percent
  | .Backward => t.timer.percent_left

/-- Output of one `Tween::tick` call: the updated tween, the returned state,
how many completion events were sent, how many callback invocations happened,
and the easing factor handed to the lens (`none` when the lens was not
applied because of the early return). -/
structure TickOut (T : Type) where
  tween : Tween T
  state : TweenState
  events : ℕ
  callbacks : ℕ
  factor : Option ℚ

/-- Source `Tweenable::tick` for `Tween` (tweenable.rs:285-328), minus the
target mutation (split into `Tween.tick` below): early-return `Completed` for a
finished non-looping tween; tick the timer; flip the direction on a just
finished ping-pong before computing progress; sample the easing at the
progress to obtain the lens factor; on a just finished timer, mark `Completed`
for `Once`, accumulate `times_completed`, send the event and invoke the
callback when enabled. -/
def Tween.tickCore {T : Type} (t : Tween T) (delta : ℕ) : TickOut T :=
  if ¬t.is_looping ∧ t.timer.finished then
    { tween := t, state := .Completed, events := 0, callbacks := 0, factor := none }
  else
    let timer := t.timer.tick delta
    let direction :=
      if timer.just_finished ∧ t.tweening_type = TweeningType.PingPong then
        t.direction.flip
      else
        t.direction
    let t1 : Tween T := { t with timer := timer, direction := direction }
    let factor := t.ease_function t1.progress
    if timer.just_finished then
      { tween := { t1 with times_completed := t1.times_completed + timer.timesFinished },
        state := if t.tweening_type = TweeningType.Once then .Completed else .Active,
        events := if t.raise_event then 1 else 0,
        callbacks := if t.on_completed then 1 else 0,
        factor := some factor }
    else
      { tween := t1, state := .Active, events := 0, callbacks := 0, factor := some factor }

/-- Source `Tweenable::tick` for `Tween` with the target threaded through:
the lens is applied to the target exactly when `tickCore` produced a factor. -/
def Tween.tick {T : Type} (t : Tween T) (delta : ℕ) (target : T) :
    Tween T × T × TweenState × ℕ × ℕ :=
  let o := t.tickCore delta
  (o.tween,
   match o.factor with
   | none => target
   | some f => t.lens target f,
   o.state, o.events, o.callbacks)

/-- Source `Tweenable::rewind` for `Tween` (tweenable.rs:334-337): reset the
timer and the completion counter. Nothing else is touched. -/
def Tween.rewind {T : Type} (t : Tween T) : Tween T :=
  { t with timer := t.timer.reset, times_completed := 0 }

/-- Iterated ticking of a tween (the state part only; the tween's evolution
does not depend on the target). -/
def Tween.runTicks {T : Type} (t : Tween T) (ds : List ℕ) : Tween T :=
  ds.foldl (fun a d => (a.tickCore d).tween) t

/-- Evaluate `progress` from the three state fields it depends on. -/
theorem progress_eval {T : Type} (t : Tween T) (dir : TweeningDirection)
    (e d : ℕ) (hdir : t.direction = dir) (he : t.timer.elapsed = e)
    (hd : t.timer.duration = d) :
    t.progress = (match dir with
      | .Forward => min 1 (max 0 ((e : ℚ) / (d : ℚ)))
      | .Backward => 1 - min 1 (max 0 ((e : ℚ) / (d : ℚ)))) := by
  simp only [Tween.progress, Timer.percent, Timer.percent_left, hdir, he, hd]
  cases dir <;> rfl

/-- A sequence of tweens played back in order one after the other
(source `Sequence<T>`, tweenable.rs:341-347).  The children, boxed trait
objects in the source, are modelled as atomic `Tween`s. -/
structure Sequence (T : Type) where
  tweens : List (Tween T)
  index : ℕ
  duration : ℕ
  time : ℕ
  times_completed : ℕ

/-- Source `Sequence::new` (tweenable.rs:353-367); the source asserts the
input collection is non-empty. -/
def Sequence.new {T : Type} (items : List (Tween T)) : Sequence T :=
  { tweens := items,
    index := 0,
    duration := (items.map fun t => t.duration).sum,
    time := 0,
    times_completed := 0 }

/-- Source `Sequence::from_single` (tweenable.rs:370-379). -/
def Sequence.from_single {T : Type} (tween : Tween T) : Sequence T :=
  { tweens := [tween], index := 0, duration := tween.duration,
    time := 0, times_completed := 0 }

/-- Source `Sequence::then` (tweenable.rs:382-386): append a child, adding its
duration to the stored aggregate. -/
def Sequence.thenTween {T : Type} (s : Sequence T) (tween : Tween T) : Sequence T :=
  { s with duration := s.duration + tween.duration,
           tweens := s.tweens ++ [tween] }

/-- Source `Tweenable::is_looping` for `Sequence` (tweenable.rs:404-406):
hardcoded false (looping sequences unimplemented). -/
def Sequence.is_looping {T : Type} (_ : Sequence T) : Bool :=
  false

/-- Source `Tweenable::progress` for `Sequence` (tweenable.rs:441-443). -/
def Sequence.progress {T : Type} (s : Sequence T) : ℚ :=
  (s.time : ℚ) / (s.duration : ℚ)

/-- The child-seeking loop of `Sequence::set_progress` (tweenable.rs:422-435):
scan the children in order accumulating durations (in seconds, here exact
rationals of nanoseconds); the child owning the absolute elapsed time gets its
local progress set and its position is returned; children passed over are
driven to progress 1; children past the owning one are left untouched.
Returns the updated children and the found index, `none` when the elapsed
time lies past the last child. -/
def seqScan {T : Type} : List (Tween T) → ℚ → ℚ → List (Tween T) × Option ℕ
  | [], _, _ => ([], none)
  | t :: rest, total, accum =>
    if total < accum + (t.duration : ℚ) then
      (t.set_progress ((total - accum) / (t.duration : ℚ)) :: rest, some 0)
    else
      let r := seqScan rest total (accum + (t.duration : ℚ))
      (t.set_progress 1 :: r.1, r.2.map fun i => i + 1)

/-- Source `Tweenable::set_progress` for `Sequence` (tweenable.rs:408-439):
clamp below at 0, store the integer part in `times_completed`, apply
`min(p,1)` (the sequence is never looping), rederive the aggregate `time`,
and reseek the children through `seqScan`; when no child owns the time the
index is set past the last child. -/
def Sequence.set_progress {T : Type} (s : Sequence T) (progress : ℚ) : Sequence T :=
  let p := max progress 0
  let applied := if s.is_looping then Int.fract p else min p 1
  let total : ℚ := (s.duration : ℚ) * applied
  let r := seqScan s.tweens total 0
  { s with times_completed := (⌊p⌋).toNat,
           time := qToNanos total,
           tweens := r.1,
           index := match r.2 with
                    | some i => i
                    | none => s.tweens.length }

/-- Output of one `Sequence::tick` call (state part). -/
structure SeqTickOut (T : Type) where
  seq : Sequence T
  state : TweenState
  events : ℕ
  callbacks : ℕ
  factor : Option ℚ

/-- Source `Tweenable::tick` for `Sequence` (tweenable.rs:445-469): if the
index is past the children, return `Completed` at once; otherwise advance the
aggregate `time` (clamped to `duration`), tick only the currently active
child, and when that child completed, rewind it and advance the index,
marking the whole sequence completed when the children are exhausted. -/
def Sequence.tickCore {T : Type} (s : Sequence T) (delta : ℕ) : SeqTickOut T :=
  if h : s.index < s.tweens.length then
    let time := min (s.time + delta) s.duration
    let tween := s.tweens.get ⟨s.index, h⟩
    let o := tween.tickCore delta
    if o.state = TweenState.Completed then
      let tweens := s.tweens.set s.index o.tween.rewind
      let index := s.index + 1
      if s.tweens.length ≤ index then
        { seq := { s with time := time, tweens := tweens, index := index,
                          times_completed := 1 },
          state := .Completed, events := o.events, callbacks := o.callbacks,
          factor := o.factor }
      else
        { seq := { s with time := time, tweens := tweens, index := index },
          state := .Active, events := o.events, callbacks := o.callbacks,
          factor := o.factor }
    else
      { seq := { s with time := time, tweens := s.tweens.set s.index o.tween },
        state := .Active, events := o.events, callbacks := o.callbacks,
        factor := o.factor }
  else
    { seq := s, state := .Completed, events := 0, callbacks := 0, factor := none }

/-- Source `Tweenable::rewind` for `Sequence` (tweenable.rs:475-483). -/
def Sequence.rewind {T : Type} (s : Sequence T) : Sequence T :=
  { s with time := 0, index := 0, times_completed := 0,
           tweens := s.tweens.map Tween.rewind }

/-- One driver-visible mutation of a sequence: a tick or a rewind. -/
inductive SeqOp
  | tick (delta : ℕ)
  | rewind

/-- Run a list of driver operations against a sequence. -/
def Sequence.runOps {T : Type} (s : Sequence T) : List SeqOp → Sequence T
  | [] => s
  | SeqOp.tick d :: ops => ((s.tickCore d).seq).runOps ops
  | SeqOp.rewind :: ops => (Sequence.rewind s).runOps ops

/-- A collection of tweenables executing in parallel (source `Tracks<T>`,
tweenable.rs:487-492). -/
structure Tracks (T : Type) where
  tracks : List (Tween T)
  duration : ℕ
  time : ℕ
  times_completed : ℕ

/-- Source `Tracks::new` (tweenable.rs:496-508): the aggregate duration is the
maximum of the children's durations (`max().unwrap()`, hence the non-empty
pattern; an empty input panics in the source and is given duration 0 here). -/
def Tracks.new {T : Type} (items : List (Tween T)) : Tracks T :=
  { tracks := items,
    duration := match items.map fun t => t.duration with
                | [] => 0
                | d :: ds => ds.foldl max d,
    time := 0,
    times_completed := 0 }

/-- Source `Tweenable::is_looping` for `Tracks` (tweenable.rs:516-518):
hardcoded false (looping tracks unimplemented). -/
def Tracks.is_looping {T : Type} (_ : Tracks T) : Bool :=
  false

/-- Source `Tweenable::set_progress` for `Tracks` (tweenable.rs:520-525):
clamp below at 0, store the integer part in `times_completed`, then apply the
fractional part of `p` — not `min(p,1)` — to the shared `time`; the children
are not reseeked. -/
def Tracks.set_progress {T : Type} (tr : Tracks T) (progress : ℚ) : Tracks T :=
  let p := max progress 0
  { tr with times_completed := (⌊p⌋).toNat,
            time := qToNanos ((tr.duration : ℚ) * Int.fract p) }

/-- Source `Tweenable::progress` for `Tracks` (tweenable.rs:527-529). -/
def Tracks.progress {T : Type} (tr : Tracks T) : ℚ :=
  (tr.time : ℚ) / (tr.duration : ℚ)

/-- Source `Tweenable::rewind` for `Tracks` (tweenable.rs:555-561). -/
def Tracks.rewind {T : Type} (tr : Tracks T) : Tracks T :=
  { tr with time := 0, times_completed := 0,
            tracks := tr.tracks.map Tween.rewind }

/-! Concrete instances used by witnesses and counterexamples.
Durations are in nanoseconds; the values are small for readability. -/

/-- A lens that ignores the factor (target type `Unit`). -/
def unitLens : Unit → ℚ → Unit := fun u _ => u

/-- A lens that writes the factor into the target, making lens applications
observable. -/
def factorLens : ℚ → ℚ → ℚ := fun _ f => f

/-- A linear `Once` tween over 4 ns with an observable lens. -/
def onceTween : Tween ℚ := Tween.new id TweeningType.Once 4 factorLens

/-- A linear `Loop` tween over 4 ns. -/
def loopTween : Tween Unit := Tween.new id TweeningType.Loop 4 unitLens

/-- A linear `PingPong` tween over 4 ns. -/
def pingTween : Tween Unit := Tween.new id TweeningType.PingPong 4 unitLens

/-- C6: only an `Once` tween can ever return `Completed`: for every tween whose
looping mode is not `Once`, a tick — with any delta, from any state — returns
`Active`, and the looping mode is preserved by the tick (so this holds for
every tick of any run). -/
theorem claim6_looping_never_completed {T : Type} (t : Tween T) (delta : ℕ)
    (h : t.tweening_type ≠ TweeningType.Once) :
    (t.tickCore delta).state = TweenState.Active ∧
    (t.tickCore delta).tween.tweening_type = t.tweening_type := by
  have hl : t.is_looping = true := by simp [Tween.is_looping, h]
  unfold Tween.tickCore
  rw [if_neg (by simp [hl])]
  constructor
  · dsimp only
    split
    · simp [h]
    · rfl
  · dsimp only
    split <;> rfl

/-- C6 witness: a fresh `Loop` tween over 4 ns ticked by 2 ns. -/
theorem claim6_witness :
    ((loopTween.tickCore 2).state = TweenState.Active ∧
     (loopTween.tickCore 2).tween.tweening_type = loopTween.tweening_type) :=
  claim6_looping_never_completed loopTween 2 (by decide)

/-- C2 (code bug): `rewind` resets the timer and the completion counter and
keeps the callback/event registration, but it does not reset `direction`: a
`PingPong` tween of 4 ns ticked once by 4 ns is in the `Backward` direction,
and after `rewind()` its elapsed time and completion count are zero while
`direction()` still returns `Backward`, contradicting the claimed reset to
the initial (`Forward`) state. -/
theorem claim2_rewind_keeps_direction :
    (((pingTween.tickCore 4).tween).direction = TweeningDirection.Backward) ∧
    (((pingTween.tickCore 4).tween.rewind).timer.elapsed = 0) ∧
    (((pingTween.tickCore 4).tween.rewind).times_completed = 0) ∧
    (((pingTween.tickCore 4).tween.rewind).timer.finished = false) ∧
    (((pingTween.tickCore 4).tween.rewind).direction = TweeningDirection.Backward) ∧
    (((pingTween.tickCore 4).tween.rewind).on_completed = pingTween.on_completed) ∧
    (((pingTween.tickCore 4).tween.rewind).raise_event = pingTween.raise_event) := by
  decide

/-- The aggregate completion counter of a sequence after one tick is either 1
or what it was before the tick. -/
theorem Sequence.tickCore_times_completed {T : Type} (s : Sequence T) (d : ℕ) :
    (s.tickCore d).seq.times_completed = 1 ∨
    (s.tickCore d).seq.times_completed = s.times_completed := by
  unfold Sequence.tickCore
  split
  · dsimp only
    split
    · split
      · exact Or.inl rfl
      · exact Or.inr rfl
    · exact Or.inr rfl
  · exact Or.inr rfl

/-- C5 (amended): under every interleaving of `tick` and `rewind` calls,
a sequence whose completion counter is at most 1 keeps it at most 1
(`set_progress` excluded: it can write any integer part, see the
counterexample). -/
theorem claim5_times_completed_le_one {T : Type} (s : Sequence T)
    (ops : List SeqOp) (h : s.times_completed ≤ 1) :
    (s.runOps ops).times_completed ≤ 1 := by
  induction ops generalizing s with
  | nil => exact h
  | cons op ops ih =>
    cases op with
    | tick d =>
      refine ih _ ?_
      rcases Sequence.tickCore_times_completed s d with h1 | h1
      · rw [h1]
      · rw [h1]; exact h
    | rewind => exact ih _ (by simp [Sequence.rewind])

/-- C5 witness: a freshly constructed singleton sequence, ticked past its end
and rewound. -/
theorem claim5_witness :
    ((Sequence.from_single loopTween).runOps
      [SeqOp.tick 2, SeqOp.rewind, SeqOp.tick 9]).times_completed ≤ 1 :=
  claim5_times_completed_le_one (Sequence.from_single loopTween)
    [SeqOp.tick 2, SeqOp.rewind, SeqOp.tick 9] (by decide)

/-- C10: during a single `Sequence::tick` in which a child is active, every
other child (in particular the next one) is left untouched — any surplus
delta is discarded rather than forwarded — the index advances by one exactly
when the active child completed this tick, and the number of children is
unchanged. -/
theorem claim10_no_delta_forwarding {T : Type} (s : Sequence T) (delta : ℕ)
    (h : s.index < s.tweens.length) :
    (∀ j, j ≠ s.index → (s.tickCore delta).seq.tweens[j]? = s.tweens[j]?) ∧
    ((s.tickCore delta).seq.index =
      if ((s.tweens.get ⟨s.index, h⟩).tickCore delta).state = TweenState.Completed
      then s.index + 1 else s.index) ∧
    (s.tickCore delta).seq.tweens.length = s.tweens.length := by
  unfold Sequence.tickCore
  rw [dif_pos h]
  dsimp only
  split
  · next hc =>
    refine ⟨?_, ?_, ?_⟩
    · intro j hj
      split
      · exact List.getElem?_set_ne (fun he => hj he.symm)
      · exact List.getElem?_set_ne (fun he => hj he.symm)
    · split <;> rfl
    · split
      · exact List.length_set ..
      · exact List.length_set ..
  · next hc =>
    exact ⟨fun j hj => List.getElem?_set_ne (fun he => hj he.symm),
           rfl,
           List.length_set ..⟩

/-- C10 witness: a two-child sequence of 4 ns tweens ticked by 9 ns; the
first child completes, the second is untouched and the surplus is dropped. -/
theorem claim10_witness :
    (∀ j, j ≠ (Sequence.new [onceTween, onceTween]).index →
      ((Sequence.new [onceTween, onceTween]).tickCore 9).seq.tweens[j]? =
        (Sequence.new [onceTween, onceTween]).tweens[j]?) ∧
    (((Sequence.new [onceTween, onceTween]).tickCore 9).seq.index =
      if (((Sequence.new [onceTween, onceTween]).tweens.get
            ⟨(Sequence.new [onceTween, onceTween]).index, by decide⟩).tickCore 9).state =
          TweenState.Completed
      then (Sequence.new [onceTween, onceTween]).index + 1
      else (Sequence.new [onceTween, onceTween]).index) ∧
    ((Sequence.new [onceTween, onceTween]).tickCore 9).seq.tweens.length =
      (Sequence.new [onceTween, onceTween]).tweens.length :=
  claim10_no_delta_forwarding (Sequence.new [onceTween, onceTween]) 9 (by decide)

/-- C5 counterexample: `set_progress(5.0)` on a freshly built singleton
sequence drives `times_completed` to 5, which is neither 0 nor 1. -/
theorem claim5_cex :
    ¬ ((((Sequence.from_single loopTween).set_progress 5).times_completed = 0) ∨
       (((Sequence.from_single loopTween).set_progress 5).times_completed = 1)) := by
  have h : ((Sequence.from_single loopTween).set_progress 5).times_completed = 5 := by
    show (⌊max (5 : ℚ) 0⌋).toNat = 5
    norm_num
    decide
  rw [h]
  decide

/-- The seed of a left max-fold is a lower bound of the fold. -/
theorem le_foldl_max (ds : List ℕ) (a : ℕ) : a ≤ ds.foldl max a := by
  induction ds generalizing a with
  | nil => exact le_refl a
  | cons d ds ih => exact le_trans (le_max_left a d) (ih (max a d))

/-- Every element of the list is bounded by the left max-fold. -/
theorem mem_le_foldl_max (ds : List ℕ) (a x : ℕ) (hx : x ∈ ds) :
    x ≤ ds.foldl max a := by
  induction ds generalizing a with
  | nil => cases hx
  | cons d ds ih =>
    rcases List.mem_cons.1 hx with rfl | hmem
    · exact le_trans (le_max_right a x) (le_foldl_max ds (max a x))
    · exact ih (max a d) hmem

/-- The left max-fold is the seed or one of the list elements. -/
theorem foldl_max_mem (ds : List ℕ) (a : ℕ) :
    ds.foldl max a = a ∨ ds.foldl max a ∈ ds := by
  induction ds generalizing a with
  | nil => exact Or.inl rfl
  | cons d ds ih =>
    rcases ih (max a d) with h | h
    · rw [List.foldl_cons]
      rcases max_cases a d with ⟨h1, _⟩ | ⟨h1, _⟩
      · exact Or.inl (h.trans h1)
      · right
        rw [h, h1]
        exact List.mem_cons_self ..
    · exact Or.inr (List.mem_cons_of_mem _ h)

/-- C9: a sequence built by `new` stores the sum of its children's durations;
`then` adds the appended child's duration, preserving the sum invariant; a
non-empty `Tracks` stores the maximum of its children's durations (an upper
bound of all of them that is attained by one of them). -/
theorem claim9_duration_aggregation {T : Type} (l : List (Tween T)) (hne : l ≠ [])
    (s : Sequence T) (tw : Tween T) :
    ((Sequence.new l).duration = (l.map fun t => t.duration).sum) ∧
    ((s.thenTween tw).duration = s.duration + tw.duration) ∧
    (s.duration = (s.tweens.map fun t => t.duration).sum →
      (s.thenTween tw).duration =
        ((s.thenTween tw).tweens.map fun t => t.duration).sum) ∧
    (∀ x ∈ l, x.duration ≤ (Tracks.new l).duration) ∧
    ((Tracks.new l).duration ∈ l.map fun t => t.duration) := by
  refine ⟨rfl, rfl, ?_, ?_, ?_⟩
  · intro h
    simp [Sequence.thenTween, h]
  · cases l with
    | nil => exact absurd rfl hne
    | cons x xs =>
      intro y hy
      have : y.duration ∈ (x :: xs).map fun t => t.duration :=
        List.mem_map_of_mem _ hy
      rcases List.mem_cons.1 this with h1 | h1
      · rw [h1]
        exact le_foldl_max _ _
      · exact mem_le_foldl_max _ _ _ h1
  · cases l with
    | nil => exact absurd rfl hne
    | cons x xs =>
      show (xs.map fun t => t.duration).foldl max x.duration ∈ _
      rcases foldl_max_mem (xs.map fun t => t.duration) x.duration with h | h
      · rw [h, List.map_cons]
        exact List.mem_cons_self ..
      · rw [List.map_cons]
        exact List.mem_cons_of_mem _ h

/-- C9 witness: the spec's own example, a 1.0 s child and a 0.8 s child
(scaled to 10 and 8 ns): the sequence stores 18, the tracks store 10. -/
theorem claim9_witness :
    (((Sequence.new [Tween.new id TweeningType.Once 10 unitLens,
        Tween.new id TweeningType.Once 8 unitLens]).duration =
      ([Tween.new id TweeningType.Once 10 unitLens,
        Tween.new id TweeningType.Once 8 unitLens].map fun t => t.duration).sum) ∧
     (((Sequence.from_single loopTween).thenTween pingTween).duration =
       (Sequence.from_single loopTween).duration + pingTween.duration) ∧
     ((Sequence.from_single loopTween).duration =
        ((Sequence.from_single loopTween).tweens.map fun t => t.duration).sum →
      ((Sequence.from_single loopTween).thenTween pingTween).duration =
        (((Sequence.from_single loopTween).thenTween pingTween).tweens.map
          fun t => t.duration).sum) ∧
     (∀ x ∈ [Tween.new id TweeningType.Once 10 unitLens,
        Tween.new id TweeningType.Once 8 unitLens],
        x.duration ≤ (Tracks.new [Tween.new id TweeningType.Once 10 unitLens,
          Tween.new id TweeningType.Once 8 unitLens]).duration) ∧
     ((Tracks.new [Tween.new id TweeningType.Once 10 unitLens,
         Tween.new id TweeningType.Once 8 unitLens]).duration ∈
       [Tween.new id TweeningType.Once 10 unitLens,
         Tween.new id TweeningType.Once 8 unitLens].map fun t => t.duration)) :=
  claim9_duration_aggregation
    [Tween.new id TweeningType.Once 10 unitLens,
     Tween.new id TweeningType.Once 8 unitLens]
    (by simp) (Sequence.from_single loopTween) pingTween

/-- Behaviour of `Timer.tick` on a repeating timer holding the invariant
`elapsed < duration`: the flags are preserved, the elapsed time wraps and
stays below the duration, `just_finished` holds exactly when a boundary was
crossed, and `timesFinished` counts the boundaries crossed this tick. -/
theorem Timer.tick_repeating_fields (tm : Timer) (delta : ℕ)
    (hrep : tm.repeating = true) (hlt : tm.elapsed < tm.duration) :
    (tm.tick delta).repeating = true ∧
    (tm.tick delta).duration = tm.duration ∧
    (tm.tick delta).elapsed < tm.duration ∧
    ((tm.tick delta).just_finished = true ↔ tm.duration ≤ tm.elapsed + delta) ∧
    (tm.tick delta).timesFinished =
      (if tm.duration ≤ tm.elapsed + delta then (tm.elapsed + delta) / tm.duration
       else 0) ∧
    (tm.tick delta).elapsed =
      (if tm.duration ≤ tm.elapsed + delta then (tm.elapsed + delta) % tm.duration
       else tm.elapsed + delta) := by
  have hd : 0 < tm.duration := lt_of_le_of_lt (Nat.zero_le _) hlt
  unfold Timer.tick
  rw [if_neg (by simp [hrep])]
  dsimp only
  split
  · next hle =>
    rw [hrep]
    refine ⟨rfl, rfl, Nat.mod_lt _ hd, ?_, rfl, rfl⟩
    simp only [Timer.just_finished, decide_eq_true_eq]
    constructor
    · intro _
      exact hle
    · intro _
      exact Nat.ne_of_gt (Nat.div_pos hle hd)
  · next hle =>
    refine ⟨hrep, rfl, lt_of_not_le hle, ?_, rfl, rfl⟩
    simp only [Timer.just_finished, decide_eq_true_eq]
    simp [hle]

/-- Field-level behaviour of one `Tween` tick when the looping guard does not
fire: the timer is ticked, the looping mode is preserved, the direction flips
exactly for a just finished ping-pong, the completion counter accumulates the
boundaries crossed, and the lens factor is the easing sampled at the reported
progress of the post-tick tween. -/
theorem Tween.tickCore_fields {T : Type} (t : Tween T) (delta : ℕ)
    (hg : t.is_looping = true ∨ t.timer.finished = false) :
    (t.tickCore delta).tween.timer = t.timer.tick delta ∧
    (t.tickCore delta).tween.tweening_type = t.tweening_type ∧
    (t.tickCore delta).tween.direction =
      (if (t.timer.tick delta).just_finished ∧
          t.tweening_type = TweeningType.PingPong
       then t.direction.flip else t.direction) ∧
    (t.tickCore delta).tween.times_completed =
      t.times_completed +
        (if (t.timer.tick delta).just_finished = true
         then (t.timer.tick delta).timesFinished else 0) ∧
    (t.tickCore delta).factor =
      some (t.ease_function ((t.tickCore delta).tween.progress)) := by
  unfold Tween.tickCore
  rw [if_neg (by rcases hg with hg | hg <;> simp [hg])]
  dsimp only
  split
  · next hjf =>
    exact ⟨rfl, rfl, rfl, rfl, rfl⟩
  · next hjf =>
    exact ⟨rfl, rfl, rfl, rfl, rfl⟩

/-- Outputs of one `Tween` tick when the looping guard does not fire: the
returned state is `Completed` exactly for a just finished `Once` tween, and
the event/callback counters fire exactly on a just finished timer with the
corresponding registration. -/
theorem Tween.tickCore_out {T : Type} (t : Tween T) (delta : ℕ)
    (hg : t.is_looping = true ∨ t.timer.finished = false) :
    (t.tickCore delta).state =
      (if (t.timer.tick delta).just_finished = true ∧
          t.tweening_type = TweeningType.Once
       then TweenState.Completed else TweenState.Active) ∧
    (t.tickCore delta).events =
      (if (t.timer.tick delta).just_finished = true ∧ t.raise_event = true
       then 1 else 0) ∧
    (t.tickCore delta).callbacks =
      (if (t.timer.tick delta).just_finished = true ∧ t.on_completed = true
       then 1 else 0) := by
  unfold Tween.tickCore
  rw [if_neg (by rcases hg with hg | hg <;> simp [hg])]
  dsimp only
  split
  · next hjf =>
    refine ⟨?_, ?_, ?_⟩ <;> simp only [hjf, true_and]
  · next hjf =>
    refine ⟨?_, ?_, ?_⟩ <;> simp [hjf]

/-- The clamped elapsed fraction always lies in `[0, 1]`. -/
theorem Timer.percent_mem (tm : Timer) : 0 ≤ tm.percent ∧ tm.percent ≤ 1 :=
  ⟨le_min (by norm_num) (le_max_left 0 _), min_le_left 1 _⟩

/-- The clamped elapsed fraction is below 1 while the timer has not reached
its duration. -/
theorem Timer.percent_lt_one (tm : Timer) (h : tm.elapsed < tm.duration) :
    tm.percent < 1 := by
  have hd : (0 : ℚ) < (tm.duration : ℚ) := by
    exact_mod_cast lt_of_le_of_lt (Nat.zero_le _) h
  have hx : ((tm.elapsed : ℚ) / (tm.duration : ℚ)) < 1 := by
    rw [div_lt_one hd]
    exact_mod_cast h
  calc tm.percent ≤ max 0 ((tm.elapsed : ℚ) / (tm.duration : ℚ)) := min_le_right ..
    _ < 1 := max_lt (by norm_num) hx

/-- State invariant of a looping tween of mode `ty` and duration `d`: the
timer repeats with that duration and its elapsed time is properly inside one
cycle; a `Loop` tween is moreover always in the `Forward` direction. -/
def LoopState {T : Type} (ty : TweeningType) (d : ℕ) (t : Tween T) : Prop :=
  t.tweening_type = ty ∧ t.timer.repeating = true ∧ t.timer.duration = d ∧
  t.timer.elapsed < d ∧
  (ty = TweeningType.Loop → t.direction = TweeningDirection.Forward)

/-- A freshly constructed looping tween satisfies the looping invariant. -/
theorem loopState_new {T : Type} (ease : ℚ → ℚ) (lens : T → ℚ → T)
    (ty : TweeningType) (d : ℕ) (hty : ty ≠ TweeningType.Once) (hd : 0 < d) :
    LoopState ty d (Tween.new ease ty d lens) :=
  ⟨rfl, by simp [Tween.new, Timer.new, hty], rfl, hd, fun _ => rfl⟩

/-- A tick of any delta preserves the looping invariant. -/
theorem loopState_tick {T : Type} {ty : TweeningType} {d : ℕ} (t : Tween T)
    (delta : ℕ) (hty : ty ≠ TweeningType.Once) (h : LoopState ty d t) :
    LoopState ty d (t.tickCore delta).tween := by
  obtain ⟨h1, h2, h3, h4, h5⟩ := h
  have hl : t.is_looping = true := by simp [Tween.is_looping, h1, hty]
  obtain ⟨f1, f2, f3, f4, _⟩ := Tween.tickCore_fields t delta (Or.inl hl)
  obtain ⟨g1, g2, g3, _, _, _⟩ :=
    Timer.tick_repeating_fields t.timer delta h2 (h3 ▸ h4)
  refine ⟨f2.trans h1, f1 ▸ g1, f1 ▸ (g2.trans h3), ?_, ?_⟩
  · rw [f1]
    exact h3 ▸ g3
  · intro hloop
    rw [f3, if_neg, h5 hloop]
    rintro ⟨-, hpp⟩
    rw [h1, hloop] at hpp
    cases hpp

/-- Any sequence of ticks preserves the looping invariant. -/
theorem loopState_run {T : Type} {ty : TweeningType} {d : ℕ} (t : Tween T)
    (ds : List ℕ) (hty : ty ≠ TweeningType.Once) (h : LoopState ty d t) :
    LoopState ty d (t.runTicks ds) := by
  induction ds generalizing t with
  | nil => exact h
  | cons x xs ih => exact ih _ (loopState_tick t x hty h)

/-- C1 (amended): after any sequence of ticks, a looping tween of positive
duration reports a progress in `[0, 1]`; for `Loop` the progress stays in
`[0, 1)`, but a `PingPong` tween can report exactly 1.0 at a backward turn
(see the counterexample). -/
theorem claim1_progress_range {T : Type} (ease : ℚ → ℚ) (lens : T → ℚ → T)
    (ty : TweeningType) (d : ℕ) (hty : ty ≠ TweeningType.Once) (hd : 0 < d)
    (ds : List ℕ) :
    (0 ≤ ((Tween.new ease ty d lens).runTicks ds).progress ∧
     ((Tween.new ease ty d lens).runTicks ds).progress ≤ 1) ∧
    (ty = TweeningType.Loop →
      ((Tween.new ease ty d lens).runTicks ds).progress < 1) := by
  obtain ⟨-, -, h3, h4, h5⟩ :=
    loopState_run (Tween.new ease ty d lens) ds hty (loopState_new ease lens ty d hty hd)
  set t := (Tween.new ease ty d lens).runTicks ds with ht
  obtain ⟨p0, p1⟩ := t.timer.percent_mem
  constructor
  · unfold Tween.progress
    cases hdir : t.direction
    · exact ⟨p0, p1⟩
    · dsimp only
      unfold Timer.percent_left
      constructor
      · linarith
      · linarith
  · intro hloop
    unfold Tween.progress
    rw [h5 hloop]
    exact t.timer.percent_lt_one (h3 ▸ h4)

/-- C1 witness: a `Loop` tween of 4 ns ticked by 2 ns, then 9 ns. -/
theorem claim1_witness :
    (0 ≤ ((Tween.new id TweeningType.Loop 4 unitLens).runTicks [2, 9]).progress ∧
     ((Tween.new id TweeningType.Loop 4 unitLens).runTicks [2, 9]).progress ≤ 1) ∧
    (TweeningType.Loop = TweeningType.Loop →
      ((Tween.new id TweeningType.Loop 4 unitLens).runTicks [2, 9]).progress < 1) :=
  claim1_progress_range id unitLens TweeningType.Loop 4 (by decide) (by decide) [2, 9]

/-- C1 counterexample: a `PingPong` tween of 4 ns ticked once by exactly 4 ns
is looping, crosses its cycle boundary on that tick, and reports a progress of
exactly 1.0 — not a value in `[0, 1)`. -/
theorem claim1_cex :
    pingTween.is_looping = true ∧
    pingTween.tweening_type = TweeningType.PingPong ∧
    (pingTween.runTicks [4]).progress = 1 := by
  refine ⟨by decide, by decide, ?_⟩
  rw [progress_eval _ TweeningDirection.Backward 0 4 (by decide) (by decide) (by decide)]
  norm_num

/-- Reported progress only depends on the direction and on the timer's
elapsed/duration pair. -/
theorem progress_congr {T U : Type} (t1 : Tween T) (t2 : Tween U)
    (hdir : t1.direction = t2.direction) (he : t1.timer.elapsed = t2.timer.elapsed)
    (hd : t1.timer.duration = t2.timer.duration) : t1.progress = t2.progress := by
  unfold Tween.progress Timer.percent_left Timer.percent
  rw [hdir, he, hd]

/-- C8: one tick of a `PingPong` tween in a reachable looping state (repeating
timer, elapsed properly inside the cycle of length `D`): the direction flips
on this tick exactly when the cumulative elapsed time crosses a multiple of
`D`; the completion counter increases by the number of half-cycle boundaries
crossed (so a full forward-and-back round trip adds two); and the factor
handed to the lens is the easing sampled at the progress reported *after* the
flip. -/
theorem claim8_pingpong_flip {T : Type} (t : Tween T) (D delta : ℕ)
    (hty : t.tweening_type = TweeningType.PingPong)
    (hrep : t.timer.repeating = true)
    (hdur : t.timer.duration = D)
    (hlt : t.timer.elapsed < D) :
    ((t.tickCore delta).tween.direction =
      if D ≤ t.timer.elapsed + delta then t.direction.flip else t.direction) ∧
    ((t.tickCore delta).tween.times_completed =
      t.times_completed + (t.timer.elapsed + delta) / D) ∧
    ((t.tickCore delta).factor =
      some (t.ease_function ((t.tickCore delta).tween.progress))) := by
  have hl : t.is_looping = true := by simp [Tween.is_looping, hty]
  have hlt' : t.timer.elapsed < t.timer.duration := by rw [hdur]; exact hlt
  obtain ⟨f1, f2, f3, f4, f5⟩ := Tween.tickCore_fields t delta (Or.inl hl)
  obtain ⟨g1, g2, g3, g4, g5, g6⟩ := Timer.tick_repeating_fields t.timer delta hrep hlt'
  refine ⟨?_, ?_, f5⟩
  · rw [f3]
    by_cases hcross : D ≤ t.timer.elapsed + delta
    · rw [if_pos ⟨g4.mpr (by rw [hdur]; exact hcross), hty⟩, if_pos hcross]
    · rw [if_neg, if_neg hcross]
      rintro ⟨hjf, -⟩
      exact hcross (by rw [← hdur]; exact g4.mp hjf)
  · rw [f4]
    by_cases hcross : D ≤ t.timer.elapsed + delta
    · rw [if_pos (g4.mpr (by rw [hdur]; exact hcross)), g5,
          if_pos (by rw [hdur]; exact hcross), hdur]
    · rw [if_neg, Nat.div_eq_of_lt (lt_of_not_le hcross)]
      intro hjf
      exact hcross (by rw [← hdur]; exact g4.mp hjf)

/-- C8 witness: a fresh `PingPong` tween of 4 ns ticked by 6 ns crosses one
boundary, flips to `Backward` and adds one completion. -/
theorem claim8_witness :
    ((pingTween.tickCore 6).tween.direction =
      if 4 ≤ pingTween.timer.elapsed + 6 then pingTween.direction.flip
      else pingTween.direction) ∧
    ((pingTween.tickCore 6).tween.times_completed =
      pingTween.times_completed + (pingTween.timer.elapsed + 6) / 4) ∧
    ((pingTween.tickCore 6).factor =
      some (pingTween.ease_function ((pingTween.tickCore 6).tween.progress))) :=
  claim8_pingpong_flip pingTween 4 6 (by decide) (by decide) (by decide) (by decide)

/-- A non-looping tween whose timer is finished is a fixed point of `tick`:
the call returns `Completed` immediately, with no state change, no event, no
callback and no lens application. -/
theorem Tween.tickCore_finished_fixpoint {T : Type} (t : Tween T) (delta : ℕ)
    (hl : t.is_looping = false) (hf : t.timer.finished = true) :
    t.tickCore delta =
      { tween := t, state := TweenState.Completed, events := 0, callbacks := 0,
        factor := none } := by
  unfold Tween.tickCore
  rw [if_pos ⟨by simp [hl], hf⟩]

/-- C7: a `Once` tween of positive duration `d` in its initial state, ticked
by exactly `d`: the tick returns `Completed` with reported progress exactly
1.0 and one completion counted; the completion event and the callback fire on
this tick exactly when registered; and the post-completion tween is a fixed
point of `tickCore` — every later tick, of any delta, returns `Completed`
again with no state change, no event and no callback — hence any later tick
sequence leaves it unchanged. -/
theorem claim7_once_completes {T : Type} (t0 : Tween T) (d : ℕ) (hd : 0 < d)
    (hty : t0.tweening_type = TweeningType.Once)
    (htimer : t0.timer = Timer.new d false)
    (hdir : t0.direction = TweeningDirection.Forward)
    (htc : t0.times_completed = 0) :
    ((t0.tickCore d).state = TweenState.Completed) ∧
    ((t0.tickCore d).tween.progress = 1) ∧
    ((t0.tickCore d).tween.times_completed = 1) ∧
    ((t0.tickCore d).events = if t0.raise_event then 1 else 0) ∧
    ((t0.tickCore d).callbacks = if t0.on_completed then 1 else 0) ∧
    (∀ delta, ((t0.tickCore d).tween.tickCore delta) =
      { tween := (t0.tickCore d).tween, state := TweenState.Completed,
        events := 0, callbacks := 0, factor := none }) ∧
    (∀ ds, ((t0.tickCore d).tween.runTicks ds) = (t0.tickCore d).tween) := by
  have hfin0 : t0.timer.finished = false := by rw [htimer]; rfl
  obtain ⟨f1, f2, f3, f4, f5⟩ := Tween.tickCore_fields t0 d (Or.inr hfin0)
  obtain ⟨s1, s2, s3⟩ := Tween.tickCore_out t0 d (Or.inr hfin0)
  have htick : t0.timer.tick d = ⟨d, d, false, true, 1⟩ := by
    rw [htimer]
    unfold Timer.tick Timer.new
    simp
  have hjf : (t0.timer.tick d).just_finished = true := by
    rw [htick]
    rfl
  have hdir1 : (t0.tickCore d).tween.direction = TweeningDirection.Forward := by
    rw [f3, if_neg, hdir]
    rintro ⟨-, hpp⟩
    rw [hty] at hpp
    cases hpp
  have he1 : (t0.tickCore d).tween.timer.elapsed = d := by rw [f1, htick]
  have hd1 : (t0.tickCore d).tween.timer.duration = d := by rw [f1, htick]
  have hfin1 : (t0.tickCore d).tween.timer.finished = true := by rw [f1, htick]
  have hl1 : (t0.tickCore d).tween.is_looping = false := by
    simp [Tween.is_looping, f2, hty]
  have hfix : ∀ delta, ((t0.tickCore d).tween.tickCore delta) =
      { tween := (t0.tickCore d).tween, state := TweenState.Completed,
        events := 0, callbacks := 0, factor := none } :=
    fun delta => Tween.tickCore_finished_fixpoint _ delta hl1 hfin1
  refine ⟨?_, ?_, ?_, ?_, ?_, hfix, ?_⟩
  · rw [s1, if_pos ⟨hjf, hty⟩]
  · rw [progress_eval _ TweeningDirection.Forward d d hdir1 he1 hd1]
    have hdq : ((d : ℕ) : ℚ) ≠ 0 := Nat.cast_ne_zero.2 hd.ne'
    simp [div_self hdq]
  · rw [f4, if_pos hjf, htick, htc]
    rfl
  · rw [s2]
    simp only [hjf, true_and]
  · rw [s3]
    simp only [hjf, true_and]
  · intro ds
    induction ds with
    | nil => rfl
    | cons x xs ih =>
      show Tween.runTicks _ (x :: xs) = _
      unfold Tween.runTicks
      rw [List.foldl_cons]
      have hx : ((t0.tickCore d).tween.tickCore x).tween = (t0.tickCore d).tween := by
        rw [hfix x]
      rw [hx]
      exact ih

/-- C7 witness: the concrete `Once` tween of 4 ns with the event flag and a
callback registered, ticked by exactly 4 ns. -/
theorem claim7_witness :
    ((((onceTween.with_completed_event true).set_completed).tickCore 4).state =
      TweenState.Completed) ∧
    ((((onceTween.with_completed_event true).set_completed).tickCore 4).tween.progress = 1) ∧
    ((((onceTween.with_completed_event true).set_completed).tickCore 4).tween.times_completed
      = 1) ∧
    ((((onceTween.with_completed_event true).set_completed).tickCore 4).events =
      if ((onceTween.with_completed_event true).set_completed).raise_event then 1 else 0) ∧
    ((((onceTween.with_completed_event true).set_completed).tickCore 4).callbacks =
      if ((onceTween.with_completed_event true).set_completed).on_completed then 1 else 0) ∧
    (∀ delta,
      ((((onceTween.with_completed_event true).set_completed).tickCore 4).tween.tickCore delta) =
      { tween := (((onceTween.with_completed_event true).set_completed).tickCore 4).tween,
        state := TweenState.Completed, events := 0, callbacks := 0, factor := none }) ∧
    (∀ ds, ((((onceTween.with_completed_event true).set_completed).tickCore 4).tween.runTicks ds)
      = (((onceTween.with_completed_event true).set_completed).tickCore 4).tween) :=
  claim7_once_completes ((onceTween.with_completed_event true).set_completed) 4
    (by decide) (by decide) (by decide) (by decide) (by decide)

/-- C3 (amended): a zero-delta tick leaves the timer state — elapsed time,
progress, `times_completed` — unchanged in every reachable state; it applies
the lens at the current progress *unless* the tween is non-looping with a
finished timer (e.g. after `set_progress(1.0)` on a `Once` tween), in which
case it returns `Completed` immediately without touching the target. -/
theorem claim3_zero_delta_tick {T : Type} (t : Tween T)
    (hreach : t.timer.elapsed < t.timer.duration ∨
      (t.is_looping = false ∧ t.timer.finished = true)) :
    ((t.tickCore 0).tween.timer.elapsed = t.timer.elapsed) ∧
    ((t.tickCore 0).tween.timer.duration = t.timer.duration) ∧
    ((t.tickCore 0).tween.progress = t.progress) ∧
    ((t.tickCore 0).tween.times_completed = t.times_completed) ∧
    ((t.tickCore 0).factor =
      if t.is_looping = false ∧ t.timer.finished = true then none
      else some (t.ease_function t.progress)) ∧
    ((t.tickCore 0).state =
      if t.is_looping = false ∧ t.timer.finished = true then TweenState.Completed
      else TweenState.Active) := by
  by_cases hg : t.is_looping = false ∧ t.timer.finished = true
  · rw [Tween.tickCore_finished_fixpoint t 0 hg.1 hg.2, if_pos hg, if_pos hg]
    exact ⟨rfl, rfl, rfl, rfl, rfl, rfl⟩
  · have hlt : t.timer.elapsed < t.timer.duration := by
      rcases hreach with h | h
      · exact h
      · exact absurd h hg
    have hg' : t.is_looping = true ∨ t.timer.finished = false := by
      rcases Bool.eq_false_or_eq_true t.is_looping with hb | hb
      · exact Or.inl hb
      · rcases Bool.eq_false_or_eq_true t.timer.finished with hf | hf
        · exact absurd ⟨hb, hf⟩ hg
        · exact Or.inr hf
    have hstep : (t.timer.tick 0).elapsed = t.timer.elapsed ∧
        (t.timer.tick 0).duration = t.timer.duration ∧
        (t.timer.tick 0).timesFinished = 0 := by
      unfold Timer.tick
      split
      · exact ⟨rfl, rfl, rfl⟩
      · dsimp only
        rw [if_neg (by omega)]
        exact ⟨rfl, rfl, rfl⟩
    have hjf : (t.timer.tick 0).just_finished = false := by
      simp [Timer.just_finished, hstep.2.2]
    obtain ⟨f1, f2, f3, f4, f5⟩ := Tween.tickCore_fields t 0 hg'
    obtain ⟨s1, s2, s3⟩ := Tween.tickCore_out t 0 hg'
    have hdir1 : (t.tickCore 0).tween.direction = t.direction := by
      rw [f3, if_neg]
      rintro ⟨hjf1, -⟩
      rw [hjf] at hjf1
      cases hjf1
    have hprog : (t.tickCore 0).tween.progress = t.progress :=
      progress_congr _ _ hdir1 (by rw [f1, hstep.1]) (by rw [f1, hstep.2.1])
    refine ⟨by rw [f1, hstep.1], by rw [f1, hstep.2.1], hprog, ?_, ?_, ?_⟩
    · rw [f4, hjf]
      simp
    · rw [f5, if_neg hg, hprog]
    · rw [s1, if_neg hg, if_neg]
      rintro ⟨hjf1, -⟩
      rw [hjf] at hjf1
      cases hjf1

/-- C3 witness: a fresh `Loop` tween of 4 ns ticked by 2 ns, then by zero:
the zero tick changes nothing and reapplies the lens at the current progress. -/
theorem claim3_witness :
    (((loopTween.runTicks [2]).tickCore 0).tween.timer.elapsed =
      (loopTween.runTicks [2]).timer.elapsed) ∧
    (((loopTween.runTicks [2]).tickCore 0).tween.timer.duration =
      (loopTween.runTicks [2]).timer.duration) ∧
    (((loopTween.runTicks [2]).tickCore 0).tween.progress =
      (loopTween.runTicks [2]).progress) ∧
    (((loopTween.runTicks [2]).tickCore 0).tween.times_completed =
      (loopTween.runTicks [2]).times_completed) ∧
    (((loopTween.runTicks [2]).tickCore 0).factor =
      if (loopTween.runTicks [2]).is_looping = false ∧
          (loopTween.runTicks [2]).timer.finished = true then none
      else some ((loopTween.runTicks [2]).ease_function
        ((loopTween.runTicks [2]).progress))) ∧
    (((loopTween.runTicks [2]).tickCore 0).state =
      if (loopTween.runTicks [2]).is_looping = false ∧
          (loopTween.runTicks [2]).timer.finished = true then TweenState.Completed
      else TweenState.Active) :=
  claim3_zero_delta_tick (loopTween.runTicks [2]) (Or.inl (by decide))

/-- C3 counterexample: a `Once` tween of 4 ns after `set_progress(1.0)` — its
timer is finished — so a zero-delta tick returns `Completed` immediately and
does NOT apply the lens to the target: the target value 37 is left unchanged,
although the claim requires the lens (which would write the eased factor 1)
to be applied at the current position. -/
theorem claim3_cex :
    ((onceTween.set_progress 1).timer.finished = true) ∧
    ((onceTween.set_progress 1).is_looping = false) ∧
    ((onceTween.set_progress 1).progress = 1) ∧
    (((onceTween.set_progress 1).tickCore 0).factor = none) ∧
    (((onceTween.set_progress 1).tickCore 0).state = TweenState.Completed) ∧
    (((onceTween.set_progress 1).tick 0 (37 : ℚ)).2.1 = 37) := by
  have htimer : (onceTween.set_progress 1).timer = ⟨4, 4, false, true, 1⟩ := by
    show (onceTween.timer.set_elapsed
      (qToNanos ((onceTween.timer.duration : ℚ) * 1))).tick 0 = _
    have hq : qToNanos ((onceTween.timer.duration : ℚ) * 1) = 4 := by
      show qToNanos (((4 : ℕ) : ℚ) * 1) = 4
      norm_num [qToNanos]
      decide
    rw [hq]
    decide
  have hfin : (onceTween.set_progress 1).timer.finished = true := by rw [htimer]
  have hlp : (onceTween.set_progress 1).is_looping = false := by decide
  have hout := Tween.tickCore_finished_fixpoint (onceTween.set_progress 1) 0 hlp hfin
  have hprog : (onceTween.set_progress 1).progress = 1 := by
    rw [progress_eval _ TweeningDirection.Forward 4 4 (by decide) (by rw [htimer])
      (by rw [htimer])]
    norm_num
  refine ⟨hfin, hlp, hprog, by rw [hout], by rw [hout], ?_⟩
  simp only [Tween.tick, hout]

/-- C4 (amended): `Tracks::set_progress` shares Sequence's outer clamping of
`p` below at 0 and its `times_completed := ⌊p⌋`, but it applies the
*fractional part* of `p` to the shared time rather than `min(p, 1)`: the two
agree on `0 ≤ p < 1` (where both give `time = duration · p`), while for every
whole `p = n ≥ 1` the tracks' aggregate time is 0 — not the full duration the
claim requires. -/
theorem claim4_tracks_set_progress {T : Type} (tr : Tracks T) (s : Sequence T)
    (p : ℚ) (hdur : s.duration = tr.duration) :
    ((tr.set_progress p).times_completed = (s.set_progress p).times_completed) ∧
    (0 ≤ p → p < 1 → (tr.set_progress p).time = (s.set_progress p).time) ∧
    (∀ n : ℕ, (tr.set_progress (n : ℚ)).time = 0) := by
  refine ⟨rfl, ?_, ?_⟩
  · intro h0 h1
    show qToNanos ((tr.duration : ℚ) * Int.fract (max p 0)) =
      qToNanos ((s.duration : ℚ) *
        (if (Sequence.is_looping s) = true then Int.fract (max p 0)
         else min (max p 0) 1))
    rw [Sequence.is_looping, if_neg (by simp), hdur, max_eq_left h0,
        Int.fract_eq_self.2 ⟨h0, h1⟩, min_eq_left h1.le]
  · intro n
    show qToNanos ((tr.duration : ℚ) * Int.fract (max (n : ℚ) 0)) = 0
    rw [max_eq_left (Nat.cast_nonneg n), Int.fract_natCast, mul_zero]
    norm_num [qToNanos]

/-- C4 witness: a singleton tracks and sequence of the same 4 ns child at
`p = 1/2`. -/
theorem claim4_witness :
    (((Tracks.new [onceTween]).set_progress (1/2)).times_completed =
      ((Sequence.from_single onceTween).set_progress (1/2)).times_completed) ∧
    (0 ≤ (1/2 : ℚ) → (1/2 : ℚ) < 1 →
      ((Tracks.new [onceTween]).set_progress (1/2)).time =
        ((Sequence.from_single onceTween).set_progress (1/2)).time) ∧
    (∀ n : ℕ, ((Tracks.new [onceTween]).set_progress (n : ℚ)).time = 0) :=
  claim4_tracks_set_progress (Tracks.new [onceTween])
    (Sequence.from_single onceTween) (1/2) (by decide)

/-- C4 counterexample: seeking a `Tracks` of one 4 ns child to `p = 1.0` sets
the aggregate time to `duration * fract(1) = 0`, not to the full duration 4
that the claimed `min(p, 1)` semantics would give. -/
theorem claim4_cex :
    (((Tracks.new [onceTween]).set_progress 1).time = 0) ∧
    ((Tracks.new [onceTween]).duration = 4) ∧
    ¬(((Tracks.new [onceTween]).set_progress 1).time =
      (Tracks.new [onceTween]).duration) := by
  have h : ((Tracks.new [onceTween]).set_progress 1).time = 0 := by
    show qToNanos (((Tracks.new [onceTween]).duration : ℚ) * Int.fract (max (1:ℚ) 0)) = 0
    rw [show max (1:ℚ) 0 = 1 by norm_num, Int.fract_one, mul_zero]
    norm_num [qToNanos]
  refine ⟨h, by decide, ?_⟩
  rw [h]
  decide
